import Mathlib

/-!
Verification of the rspl stream-processor library (`src/lib.rs`,
`src/combinators.rs`, `src/streams/`).

Modelling conventions.

The Rust type `StreamProcessor<A, B>` is a coinductive datatype: `Get` carries
a one-shot continuation `A -> StreamProcessor`, `Put` carries an output value
and a suspended continuation, and values may be unboundedly deep (e.g. `map`).
We embed it as the inductive type `Rspl.StreamProcessor` of *finite
approximations*: the extra leaf `Bot` stands for an as-yet-unexpanded (or
never-productive) rest of a processor.  An infinite Rust processor is
represented by its family of depth-indexed unfoldings (`Rspl.map f n`,
`Rspl.filter p n`, ...); deeper indices refine the approximation.  Laziness of
Rust thunks is immaterial on finite trees, so `Put`'s suspended continuation
becomes a plain subtree.

Input streams (`Stream`/`InfiniteList` in Rust) are embedded extensionally as
functions `Nat → A`; `stail`, `scons` and `stake` mirror `tail`, `cons` and
taking a finite prefix.  The evaluator produces an `InfiniteList` lazily in
Rust; evaluating a finite approximation here produces the `List` of outputs
that approximation accounts for, ending where a `Bot` truncates it.
-/

namespace Rspl

/-- Extensional model of the `Stream`/`InfiniteList` types: an infinite
sequence of elements of `A`. -/
def StreamI (A : Type) : Type := Nat → A

/-- `Stream::head` (also `peek` in the spec): the current element. -/
def shead {A : Type} (s : StreamI A) : A := s 0

/-- `Stream::tail` (also `advance` in the spec): drop the current element. -/
def stail {A : Type} (s : StreamI A) : StreamI A := fun n => s (n + 1)

/-- `InfiniteList::Cons`: prepend an element to a stream. -/
def scons {A : Type} (a : A) (s : StreamI A) : StreamI A
  | 0 => a
  | n + 1 => s n

/-- The finite prefix of length `n` of a stream. -/
def stake {A : Type} : Nat → StreamI A → List A
  | 0, _ => []
  | n + 1, s => shead s :: stake n (stail s)

/-- Finite approximations of the Rust enum `StreamProcessor<'a, A, B>`
(src/lib.rs).  `Get` is the `Get(Box<dyn FnOnce(A) -> StreamProcessor>)`
variant, `Put` is `Put(B, Box<Lazy<StreamProcessor>>)` with the thunk forced
(finite trees need no laziness), and `Bot` marks where the approximation of
a possibly infinite processor stops. -/
inductive StreamProcessor (A B : Type) : Type where
  | Bot : StreamProcessor A B
  | Get : (A → StreamProcessor A B) → StreamProcessor A B
  | Put : B → StreamProcessor A B → StreamProcessor A B

/-- The test `if let StreamProcessor::Get(_) = sp` used by `eval` to decide
whether to advance the input stream. -/
def isGet {A B : Type} : StreamProcessor A B → Bool
  | .Get _ => true
  | _ => false

/-- `StreamProcessor::eval` (src/lib.rs, lines 249-285), on a finite
approximation.  The Rust evaluator loops: on `Get(f)` it applies `f` to the
head of the stream and advances the stream exactly when the resulting
processor is again a `Get`; on `Put(b, lazy_sp)` it emits `b` as the head of
the output and defers forcing `lazy_sp` into the output's tail, advancing the
input iff the forced processor is a `Get`.  On a `Bot` truncation no further
output is accounted for. -/
def eval {A B : Type} : StreamProcessor A B → StreamI A → List B
  | .Bot, _ => []
  | .Get f, s => eval (f (shead s)) (if isGet (f (shead s)) then stail s else s)
  | .Put b k, s => b :: eval k (if isGet k then stail s else s)

/-- `combinators::map` (src/combinators.rs, lines 26-33), unfolded to depth
`n`: `map(f) = Get(|a| Put(f(a), || map(f)))`. -/
def map {A B : Type} (f : A → B) : Nat → StreamProcessor A B
  | 0 => .Bot
  | n + 1 => .Get (fun a => .Put (f a) (map f n))

/-- `combinators::filter` (src/combinators.rs, lines 55-66), unfolded to
depth `n`: `filter(p) = Get(|a| if p(&a) { Put(a, || filter(p)) } else
{ filter(p) })`. -/
def filter {A : Type} (p : A → Bool) : Nat → StreamProcessor A A
  | 0 => .Bot
  | n + 1 => .Get (fun a => if p a then .Put a (filter p n) else filter p n)

/-- Helper for `compose`: split a processor into its maximal leading chain of
`Put`s and what follows it (`some g` for a `Get(g)`, `none` for a `Bot`
truncation).  This renders the eager recursion of the Rust `compose` in the
`(Put, Put)` and `(Put, Get)` cases, which peels `sp2`'s leading writes one
at a time. -/
def peelPuts {B C : Type} : StreamProcessor B C → List C × Option (B → StreamProcessor B C)
  | .Bot => ([], none)
  | .Get g => ([], some g)
  | .Put c k => ((peelPuts k).1.cons c, (peelPuts k).2)

/-- Helper for `compose`: re-attach a peeled chain of `Put`s. -/
def wrapPuts {A C : Type} (cs : List C) (t : StreamProcessor A C) : StreamProcessor A C :=
  cs.foldr .Put t

/-- `combinators::compose` (src/combinators.rs, lines 90-104):
`compose(Get(f), sp2) = Get(|a| compose(f(a), sp2))`;
`compose(Put(b, k1), Get(f)) = compose(k1(), f(b))`;
`compose(Put(b, k1), Put(c, k2)) = Put(c, || compose(Put(b, k1), k2()))`.
The eager `(Put, _)` recursion on `sp2` is computed here by peeling `sp2`'s
leading `Put`s in one go; the equations above are recovered literally as
`compose_Put_Get` and `compose_Put_Put` below. -/
def compose {A B C : Type} : StreamProcessor A B → StreamProcessor B C → StreamProcessor A C
  | .Bot, _ => .Bot
  | .Get f, sp2 => .Get (fun a => compose (f a) sp2)
  | .Put b k1, sp2 =>
      match peelPuts sp2 with
      | (cs, none) => wrapPuts cs .Bot
      | (cs, some g) => wrapPuts cs (compose k1 (g b))

/-- `combinators::alternate` (src/combinators.rs, lines 129-139), with an
explicit unfolding depth (first argument) making the swap recursion
structural: `alternate(Get(f), sp2) = Get(|a| alternate(f(a), sp2))`;
`alternate(Put(b, lazy_sp), sp2) = Put(b, || alternate(sp2, lazy_sp()))`. -/
def alternate {A B : Type} : Nat → StreamProcessor A B → StreamProcessor A B → StreamProcessor A B
  | 0, _, _ => .Bot
  | _ + 1, .Bot, _ => .Bot
  | n + 1, .Get f, sp2 => .Get (fun a => alternate n (f a) sp2)
  | n + 1, .Put b k, sp2 => .Put b (alternate n sp2 k)

/-- `combinators::bind` (src/combinators.rs, lines 163-171):
`bind(Get(g), f) = Get(|a| bind(g(a), f))`; `bind(Put(b, _), f) = f(b)` —
the first written value selects `f(b)` and `sp`'s own continuation is
discarded. -/
def bind {X A B : Type} : StreamProcessor X A → (A → StreamProcessor X B) → StreamProcessor X B
  | .Bot, _ => .Bot
  | .Get g, f => .Get (fun a => bind (g a) f)
  | .Put b _, f => f b

section Equations

variable {A B C : Type}

@[simp]
theorem isGet_Bot : isGet (.Bot : StreamProcessor A B) = false := rfl

@[simp]
theorem isGet_Get (f : A → StreamProcessor A B) : isGet (.Get f) = true := rfl

@[simp]
theorem isGet_Put (b : B) (k : StreamProcessor A B) : isGet (.Put b k) = false := rfl

@[simp]
theorem eval_Bot (s : StreamI A) : eval (.Bot : StreamProcessor A B) s = [] := rfl

theorem eval_Get (f : A → StreamProcessor A B) (s : StreamI A) :
    eval (.Get f) s = eval (f (shead s)) (if isGet (f (shead s)) then stail s else s) := rfl

@[simp]
theorem eval_Put (b : B) (k : StreamProcessor A B) (s : StreamI A) :
    eval (.Put b k) s = b :: eval k (if isGet k then stail s else s) := rfl

@[simp]
theorem compose_Bot (sp2 : StreamProcessor B C) :
    compose (.Bot : StreamProcessor A B) sp2 = .Bot := rfl

@[simp]
theorem compose_Get (f : A → StreamProcessor A B) (sp2 : StreamProcessor B C) :
    compose (.Get f) sp2 = .Get (fun a => compose (f a) sp2) := rfl

@[simp]
theorem compose_Put_Bot (b : B) (k1 : StreamProcessor A B) :
    compose (.Put b k1) (.Bot : StreamProcessor B C) = .Bot := rfl

/-- The `(Put, Get)` clause of the Rust `compose`:
`compose(Put(b, k1), Get(f)) = compose(k1(), f(b))`. -/
@[simp]
theorem compose_Put_Get (b : B) (k1 : StreamProcessor A B) (g : B → StreamProcessor B C) :
    compose (.Put b k1) (.Get g) = compose k1 (g b) := rfl

/-- The `(Put, Put)` clause of the Rust `compose`:
`compose(Put(b, k1), Put(c, k2)) = Put(c, || compose(Put(b, k1), k2()))`. -/
@[simp]
theorem compose_Put_Put (b : B) (k1 : StreamProcessor A B) (c : C) (k2 : StreamProcessor B C) :
    compose (.Put b k1) (.Put c k2) = .Put c (compose (.Put b k1) k2) := by
  show (match peelPuts (.Put c k2) with
    | (cs, none) => wrapPuts cs .Bot
    | (cs, some g) => wrapPuts cs (compose k1 (g b))) = _
  have hpeel : peelPuts (.Put c k2) = ((peelPuts k2).1.cons c, (peelPuts k2).2) := rfl
  rcases h2 : peelPuts k2 with ⟨cs, t⟩
  rw [hpeel, h2]
  show (match ((List.cons c cs : List C), t) with
    | (cs, none) => wrapPuts cs .Bot
    | (cs, some g) => wrapPuts cs (compose k1 (g b))) = _
  cases t <;>
    simp only [compose, h2, wrapPuts, List.foldr]

@[simp]
theorem bind_Bot (f : A → StreamProcessor B C) :
    bind (.Bot : StreamProcessor B A) f = .Bot := rfl

@[simp]
theorem bind_Get (g : B → StreamProcessor B A) (f : A → StreamProcessor B C) :
    bind (.Get g) f = .Get (fun a => bind (g a) f) := rfl

@[simp]
theorem bind_Put (b : A) (k : StreamProcessor B A) (f : A → StreamProcessor B C) :
    bind (.Put b k) f = f b := rfl

@[simp]
theorem alternate_zero (sp1 sp2 : StreamProcessor A B) : alternate 0 sp1 sp2 = .Bot := rfl

@[simp]
theorem alternate_Bot (n : Nat) (sp2 : StreamProcessor A B) :
    alternate (n + 1) .Bot sp2 = .Bot := rfl

@[simp]
theorem alternate_Get (n : Nat) (f : A → StreamProcessor A B) (sp2 : StreamProcessor A B) :
    alternate (n + 1) (.Get f) sp2 = .Get (fun a => alternate n (f a) sp2) := rfl

@[simp]
theorem alternate_Put (n : Nat) (b : B) (k sp2 : StreamProcessor A B) :
    alternate (n + 1) (.Put b k) sp2 = .Put b (alternate n sp2 k) := rfl

theorem shead_def (s : StreamI A) : shead s = s 0 := rfl

@[simp]
theorem stake_zero (s : StreamI A) : stake 0 s = [] := rfl

@[simp]
theorem stake_succ (n : Nat) (s : StreamI A) :
    stake (n + 1) s = shead s :: stake n (stail s) := rfl

end Equations

section EvalLemmas

variable {A B C : Type}

/-- Evaluating the depth-`n` unfolding of `map f` yields `f` applied
pointwise to the length-`n` prefix of the input. -/
theorem eval_map (f : A → B) : ∀ (n : Nat) (s : StreamI A),
    eval (map f n) s = (stake n s).map f := by
  intro n
  induction n with
  | zero => intro s; rfl
  | succ n ih =>
    intro s
    show eval (.Get (fun a => .Put (f a) (map f n))) s = _
    rw [eval_Get]
    cases n with
    | zero => simp [eval]
    | succ m =>
      simp only [isGet_Put, if_neg (by simp : ¬ (false = true)), eval_Put]
      rw [show isGet (map f (m + 1)) = true from rfl]
      simp [ih (stail s)]

/-- Evaluating the depth-`n` unfolding of `filter p` yields exactly the
`p`-satisfying elements of the length-`n` input prefix, in input order. -/
theorem eval_filter (p : A → Bool) : ∀ (n : Nat) (s : StreamI A),
    eval (filter p n) s = (stake n s).filter p := by
  intro n
  induction n with
  | zero => intro s; rfl
  | succ n ih =>
    intro s
    show eval (.Get (fun a => if p a then .Put a (filter p n) else filter p n)) s = _
    rw [eval_Get]
    cases hp : p (shead s) with
    | true =>
      rw [if_pos (rfl : true = true)]
      simp only [isGet_Put, Bool.false_eq_true, if_false, eval_Put]
      cases n with
      | zero => simp [filter, List.filter_cons, hp]
      | succ m =>
        rw [show isGet (filter p (m + 1)) = true from rfl, if_pos (rfl : true = true),
          ih (stail s)]
        simp [List.filter_cons, hp]
    | false =>
      rw [if_neg (by simp : ¬ (false = true))]
      cases n with
      | zero => simp [filter, List.filter_cons, hp]
      | succ m =>
        rw [show isGet (filter p (m + 1)) = true from rfl, if_pos (rfl : true = true),
          ih (stail s)]
        simp [List.filter_cons, hp]

/-- Invariant for `eval_compose_map_map`: a pending output `c` of the second
map sits in front of the running composition. -/
theorem eval_compose_map_Put (f : A → B) (g : B → C) :
    ∀ (n m : Nat) (c : C) (s : StreamI A),
    eval (compose (map f (n + 1)) (.Put c (map g m))) s
      = c :: (stake (min n m) s).map (fun a => g (f a)) := by
  intro n
  induction n with
  | zero =>
    intro m c s
    cases m with
    | zero =>
      show ([c] : List C) = _
      simp [Nat.zero_min]
    | succ m' =>
      show ([c] : List C) = _
      simp [Nat.zero_min]
  | succ n ih =>
    intro m c s
    cases m with
    | zero =>
      show ([c] : List C) = _
      simp [Nat.min_zero]
    | succ m' =>
      show c :: eval (compose (map f (n + 1)) (.Put (g (f (shead s))) (map g m'))) (stail s) = _
      rw [ih m' (g (f (shead s))) (stail s)]
      simp [Nat.succ_min_succ]

/-- Evaluating `compose (map f) (map g)` at approximation depths `n`, `m`
yields `g ∘ f` applied pointwise to an input prefix (of length
`min (n - 1) m`). -/
theorem eval_compose_map_map (f : A → B) (g : B → C) :
    ∀ (n m : Nat) (s : StreamI A),
    eval (compose (map f n) (map g m)) s
      = (stake (min (n - 1) m) s).map (fun a => g (f a)) := by
  intro n m s
  cases n with
  | zero =>
    show ([] : List C) = _
    simp [Nat.zero_min]
  | succ n =>
    cases m with
    | zero =>
      show ([] : List C) = _
      simp [Nat.min_zero]
    | succ m' =>
      cases n with
      | zero =>
        show ([] : List C) = _
        simp [Nat.zero_min]
      | succ n' =>
        show eval (compose (map f (n' + 1)) (.Put (g (f (shead s))) (map g m'))) (stail s) = _
        rw [eval_compose_map_Put f g n' m' (g (f (shead s))) (stail s)]
        simp [Nat.succ_min_succ]

end EvalLemmas

section Assoc

variable {A B C D : Type}

/-- `compose` is associative, even as an operation on processor values
(syntactic equality of the resulting approximations, which entails equal
output streams under `eval` on every input). -/
theorem compose_assoc :
    ∀ (sp1 : StreamProcessor A B) (sp2 : StreamProcessor B C) (sp3 : StreamProcessor C D),
    compose (compose sp1 sp2) sp3 = compose sp1 (compose sp2 sp3) := by
  intro sp1
  induction sp1 with
  | Bot => intro sp2 sp3; rfl
  | Get f ih =>
    intro sp2 sp3
    show StreamProcessor.Get (fun a => compose (compose (f a) sp2) sp3)
        = .Get (fun a => compose (f a) (compose sp2 sp3))
    congr 1
    funext a
    exact ih a sp2 sp3
  | Put b k1 ih1 =>
    intro sp2
    induction sp2 with
    | Bot => intro sp3; rfl
    | Get g _ =>
      intro sp3
      show compose (compose k1 (g b)) sp3 = _
      rw [ih1 (g b) sp3]
      rfl
    | Put c k2 ih2 =>
      intro sp3
      induction sp3 with
      | Bot =>
        rw [compose_Put_Put b k1 c k2]
        rfl
      | Get h _ =>
        show compose (compose (.Put b k1) (.Put c k2)) (.Get h)
            = compose (.Put b k1) (compose (.Put c k2) (.Get h))
        rw [compose_Put_Put b k1 c k2, compose_Put_Get c (compose (.Put b k1) k2) h,
          ih2 (h c)]
        rfl
      | Put d k3 ih3 =>
        simp only [compose_Put_Put]
        congr 1
        rw [← compose_Put_Put b k1 c k2]
        exact ih3

end Assoc

section Channels

variable {A B X : Type}

/-- Model of `OvereagerReceiver<X>` together with the state of its channel
(src/streams/overeager_receivers.rs).  `message` is the single message
buffered one ahead; `queue` holds the messages sent but not yet received, in
FIFO order; `cap` is the capacity passed to `channel` (`0` means unbounded);
`connected` records whether the sending side is still alive. -/
structure OvereagerReceiver (X : Type) : Type where
  message : X
  queue : List X
  cap : Nat
  connected : Bool

/-- `OvereagerReceiver::channel(cap, message)`: a fresh channel holding no
queued messages, with capacity `cap` and initial buffered placeholder
`message`. -/
def channel (cap : Nat) (message : X) : OvereagerReceiver X :=
  ⟨message, [], cap, true⟩

/-- `Stream::head` for `OvereagerReceiver`: `&self.message`. -/
def orHead (r : OvereagerReceiver X) : X := r.message

/-- `Sender::send`: enqueue a message.  An unbounded channel (`cap = 0`)
always accepts; a bounded channel accepts only while it holds fewer than
`cap` messages, otherwise the sender blocks, modelled as `none`. -/
def send (x : X) (r : OvereagerReceiver X) : Option (OvereagerReceiver X) :=
  if r.cap = 0 ∨ r.queue.length < r.cap then
    some ⟨r.message, r.queue ++ [x], r.cap, r.connected⟩
  else none

/-- Outcome of `Stream::tail` (`self.receiver.recv().unwrap()`) on an
overeager receiver: the next receiver state, or blocking until a message
arrives (empty queue, live sender), or the terminal `unwrap` panic of a
`RecvError` (empty queue, disconnected sender). -/
inductive RecvOutcome (X : Type) : Type where
  | next : OvereagerReceiver X → RecvOutcome X
  | blocked : RecvOutcome X
  | panicked : RecvOutcome X

/-- `Stream::tail` for `OvereagerReceiver` (src/streams/overeager_receivers.rs,
lines 39-42): receive the next message into the one-ahead buffer; on an empty
queue it blocks while the sender lives and panics terminally once the sender
is gone. -/
def orTail (r : OvereagerReceiver X) : RecvOutcome X :=
  match r.queue with
  | x :: q => .next ⟨x, q, r.cap, r.connected⟩
  | [] => if r.connected then .blocked else .panicked

/-- `Stream::tail` on a receiver whose sending side is permanently gone:
`recv` drains the remaining queued messages and then returns a terminal
error (it never blocks), whose `unwrap` is the panic aborting evaluation.
Used to instantiate `evalE` on dead channels. -/
def orTailDead (r : OvereagerReceiver X) : Except Unit (OvereagerReceiver X) :=
  match r.queue with
  | x :: q => .ok ⟨x, q, r.cap, r.connected⟩
  | [] => .error ()

/-- `StreamProcessor::eval` against a fallible stream: `hd`/`tl` model
`Stream::head`/`Stream::tail` on stream states of type `σ` where advancing
can raise a failure of an arbitrary type `E` (e.g. the panic of a
disconnected `OvereagerReceiver`).  It follows the advance-iff-`Get`
discipline of `eval`; the second component records the failure raised by the
first failing `tl`, if evaluation runs into one, and evaluation stops there
(the failure is not retried). -/
def evalE {σ E : Type} (hd : σ → A) (tl : σ → Except E σ) :
    StreamProcessor A B → σ → List B × Option E
  | .Bot, _ => ([], none)
  | .Get f, s =>
      if isGet (f (hd s)) then
        match tl s with
        | .error e => ([], some e)
        | .ok s' => evalE hd tl (f (hd s)) s'
      else evalE hd tl (f (hd s)) s
  | .Put b k, s =>
      if isGet k then
        match tl s with
        | .error e => ([b], some e)
        | .ok s' => ((evalE hd tl k s').1.cons b, (evalE hd tl k s').2)
      else ((evalE hd tl k s).1.cons b, (evalE hd tl k s).2)

/-- The infinite stream read off a total stream state by iterating its
advance function. -/
def iterStream {σ : Type} (hd : σ → A) (t : σ → σ) (s : σ) : StreamI A :=
  fun n => hd (t^[n] s)

theorem stail_iterStream {σ : Type} (hd : σ → A) (t : σ → σ) (s : σ) :
    stail (iterStream hd t s) = iterStream hd t (t s) := by
  funext n
  show hd (t^[n + 1] s) = hd (t^[n] (t s))
  rw [Function.iterate_succ_apply]

/-- On a stream that never fails, `evalE` coincides with `eval` and raises
no error: the evaluator itself introduces no failures. -/
theorem evalE_ok {σ E : Type} (hd : σ → A) (t : σ → σ) :
    ∀ (sp : StreamProcessor A B) (s : σ),
    evalE hd (fun x => (Except.ok (t x) : Except E σ)) sp s
      = (eval sp (iterStream hd t s), none) := by
  intro sp
  induction sp with
  | Bot => intro s; rfl
  | Get f ih =>
    intro s
    have hL : evalE hd (fun x => (Except.ok (t x) : Except E σ)) (.Get f) s
        = if isGet (f (hd s)) then
            evalE hd (fun x => (Except.ok (t x) : Except E σ)) (f (hd s)) (t s)
          else evalE hd (fun x => (Except.ok (t x) : Except E σ)) (f (hd s)) s := rfl
    have hhd : shead (iterStream hd t s) = hd s := rfl
    by_cases hg : isGet (f (hd s)) = true
    · rw [hL, if_pos hg, ih (hd s) (t s), eval_Get, hhd, if_pos hg, stail_iterStream]
    · rw [hL, if_neg hg, ih (hd s) s, eval_Get, hhd, if_neg hg]
  | Put b k ih =>
    intro s
    have hL : evalE hd (fun x => (Except.ok (t x) : Except E σ)) (.Put b k) s
        = if isGet k then
            ((evalE hd (fun x => (Except.ok (t x) : Except E σ)) k (t s)).1.cons b,
              (evalE hd (fun x => (Except.ok (t x) : Except E σ)) k (t s)).2)
          else
            ((evalE hd (fun x => (Except.ok (t x) : Except E σ)) k s).1.cons b,
              (evalE hd (fun x => (Except.ok (t x) : Except E σ)) k s).2) := rfl
    by_cases hg : isGet k = true
    · rw [hL, if_pos hg, ih (t s), eval_Put, if_pos hg, stail_iterStream]
    · rw [hL, if_neg hg, ih s, eval_Put, if_neg hg]

/-- Every failure reported by `evalE` is a failure raised by the stream's
`tl`, propagated unchanged: the evaluator catches and suppresses nothing. -/
theorem evalE_error_from_tail {σ E : Type} (hd : σ → A) (tl : σ → Except E σ) :
    ∀ (sp : StreamProcessor A B) (s : σ) (e : E),
    (evalE hd tl sp s).2 = some e → ∃ x : σ, tl x = .error e := by
  intro sp
  induction sp with
  | Bot =>
    intro s e h
    exact absurd h (by simp [evalE])
  | Get f ih =>
    intro s e h
    by_cases hg : isGet (f (hd s)) = true
    · rw [show evalE hd tl (.Get f) s
          = (if isGet (f (hd s)) then
              match tl s with
              | .error e => ([], some e)
              | .ok s' => evalE hd tl (f (hd s)) s'
            else evalE hd tl (f (hd s)) s) from rfl, if_pos hg] at h
      cases htl : tl s with
      | error e' =>
        rw [htl] at h
        simp at h
        exact ⟨s, by rw [htl, h]⟩
      | ok s' =>
        rw [htl] at h
        exact ih (hd s) s' e h
    · rw [show evalE hd tl (.Get f) s
          = (if isGet (f (hd s)) then
              match tl s with
              | .error e => ([], some e)
              | .ok s' => evalE hd tl (f (hd s)) s'
            else evalE hd tl (f (hd s)) s) from rfl, if_neg hg] at h
      exact ih (hd s) s e h
  | Put b k ih =>
    intro s e h
    by_cases hg : isGet k = true
    · rw [show evalE hd tl (.Put b k) s
          = (if isGet k then
              match tl s with
              | .error e => ([b], some e)
              | .ok s' => ((evalE hd tl k s').1.cons b, (evalE hd tl k s').2)
            else ((evalE hd tl k s).1.cons b, (evalE hd tl k s).2)) from rfl, if_pos hg] at h
      cases htl : tl s with
      | error e' =>
        rw [htl] at h
        simp at h
        exact ⟨s, by rw [htl, h]⟩
      | ok s' =>
        rw [htl] at h
        exact ih s' e h
    · rw [show evalE hd tl (.Put b k) s
          = (if isGet k then
              match tl s with
              | .error e => ([b], some e)
              | .ok s' => ((evalE hd tl k s').1.cons b, (evalE hd tl k s').2)
            else ((evalE hd tl k s).1.cons b, (evalE hd tl k s).2)) from rfl, if_neg hg] at h
      exact ih s e h

end Channels

section Alternation

variable {A B : Type}

/-- One matching round of `alternate` over filters: when the current head
satisfies `p`, the head is emitted and control swaps to `sp2`, paired with
`filter p`'s continuation. -/
theorem alternate_filter_match (p : A → Bool) (sp2 : StreamProcessor A A)
    (n d : Nat) (s : StreamI A) (hp : p (shead s) = true) :
    eval (alternate (n + 2) (filter p (d + 1)) sp2) s
      = shead s :: eval (alternate n sp2 (filter p d))
          (if isGet (alternate n sp2 (filter p d)) then stail s else s) := by
  rw [show filter p (d + 1)
      = .Get (fun a => if p a then .Put a (filter p d) else filter p d) from rfl,
    alternate_Get]
  simp only [eval_Get]
  rw [if_pos hp, alternate_Put]
  simp only [isGet_Put, Bool.false_eq_true, if_false, eval_Put]

/-- One skipping round of `alternate` over filters: when the current head
fails `p`, nothing is emitted and `sp1` stays in control as `filter p`'s
continuation. -/
theorem alternate_filter_skip (p : A → Bool) (sp2 : StreamProcessor A A)
    (n d : Nat) (s : StreamI A) (hp : p (shead s) = false) :
    eval (alternate (n + 2) (filter p (d + 1)) sp2) s
      = eval (alternate (n + 1) (filter p d) sp2)
          (if isGet (alternate (n + 1) (filter p d) sp2) then stail s else s) := by
  rw [show filter p (d + 1)
      = .Get (fun a => if p a then .Put a (filter p d) else filter p d) from rfl,
    alternate_Get]
  simp only [eval_Get]
  rw [if_neg (by simp [hp])]

/-- Membership in a stream prefix comes from a stream position. -/
theorem mem_stake : ∀ (k : Nat) (s : StreamI A) (b : A),
    b ∈ stake k s → ∃ i, i < k ∧ b = s i := by
  intro k
  induction k with
  | zero =>
    intro s b h
    simp [stake] at h
  | succ k ih =>
    intro s b h
    rw [stake_succ] at h
    rcases List.mem_cons.mp h with h1 | h2
    · exact ⟨0, Nat.succ_pos k, h1⟩
    · rcases ih (stail s) b h2 with ⟨i, hi, hb⟩
      exact ⟨i + 1, Nat.succ_lt_succ hi, hb⟩

/-- The input stream `1, 2, 3, 4, 5, ...` of the bind scenario. -/
def ascending : StreamI Nat := fun n => n + 1

end Alternation

section Claims

/-- Claim C1: for every processor and input stream, when evaluation reaches
a `Put` (Write) step the written value is the head of the output stream
immediately and independently of the suspended continuation `k` (so the
head is available without forcing `k`); the tail of the output evaluates the
continuation against an input stream that is advanced exactly when the
processor obtained from the continuation is a `Get` (Read) — never merely
because an output was produced. -/
theorem claim_C1 : ∀ (A B : Type) (b : B) (k : StreamProcessor A B) (s : StreamI A),
    (eval (.Put b k) s).head? = some b
      ∧ eval (.Put b k) s = b :: eval k (if isGet k then stail s else s) :=
  fun _ _ _ _ _ => ⟨rfl, rfl⟩

/-- Claim C4: for every predicate `p` and input stream `s`, the output of
evaluating `filter p` (at any approximation depth `n`) is exactly
`List.filter p` of the corresponding input prefix; hence every output
element satisfies `p`, the outputs appear in input order (a sublist of the
input prefix), and no satisfying element of the prefix is omitted. -/
theorem claim_C4 : ∀ (A : Type) (p : A → Bool) (n : Nat) (s : StreamI A),
    eval (filter p n) s = (stake n s).filter p
      ∧ (∀ b ∈ eval (filter p n) s, p b = true)
      ∧ (eval (filter p n) s).Sublist (stake n s) := by
  intro A p n s
  refine ⟨eval_filter p n s, ?_, ?_⟩
  · intro b hb
    rw [eval_filter] at hb
    exact List.of_mem_filter hb
  · rw [eval_filter]
    exact List.filter_sublist _

theorem claim_C4_witness :
    ((1 : Nat) ∈ eval (filter (fun n => decide (0 < n)) 3) (fun n => n))
      ∧ decide (0 < (1 : Nat)) = true :=
  ⟨by decide, (claim_C4 Nat (fun n => decide (0 < n)) 3 (fun n => n)).2.1 1 (by decide)⟩

/-- Claim C5: for all pure functions `f`, `g` and every stream `s`,
sequentially composing `map f` with `map g` produces the same output stream
as `map (g ∘ f)`: at approximation depths `n`, `m` the outputs coincide with
those of `map (g ∘ f)` at the corresponding depth `min (n - 1) m`, so the
limit output streams are equal. -/
theorem claim_C5 : ∀ (A B C : Type) (f : A → B) (g : B → C) (n m : Nat) (s : StreamI A),
    eval (compose (map f n) (map g m)) s
      = eval (map (fun a => g (f a)) (min (n - 1) m)) s := by
  intro A B C f g n m s
  rw [eval_compose_map_map, eval_map]

/-- Claim C6 (counterexample to the identity half): `map (fun a => a)` is
not a two-sided identity for `compose` under `eval`.  For the processor
`Put 5 (Get (fun x => Put x ...))` on the input stream `0, 1, 2, ...`, the
bare processor writes `5` and then echoes the second input element `1`
(after a leading `Put`, the evaluator advances past the unread head when the
continuation is a `Get`), while composing with `map (fun a => a)` on either
side forces an input read before the leading write, so the echoed element is
`0` instead: the output streams differ. -/
theorem claim_C6_counterexample :
    eval (compose (map (fun a : Nat => a) 3) (.Put 5 (.Get fun x => .Put x .Bot)))
        (fun n => n) = [5, 0]
    ∧ eval (.Put 5 (.Get fun x => .Put x .Bot) : StreamProcessor Nat Nat) (fun n => n) = [5, 1]
    ∧ eval (compose (.Put 5 (.Get fun x => .Put x (.Get fun y => .Put y .Bot)))
        (map (fun a : Nat => a) 3)) (fun n => n) = [5, 0]
    ∧ eval (.Put 5 (.Get fun x => .Put x (.Get fun y => .Put y .Bot)) : StreamProcessor Nat Nat)
        (fun n => n) = [5, 1, 2]
    ∧ ([5, 0] : List Nat) ≠ [5, 1] :=
  ⟨rfl, rfl, rfl, rfl, by decide⟩

/-- Claim C6 (amended): `compose` is associative — even as an operation on
processor values, hence a fortiori the output streams on identical inputs
are equal — and `map` of the identity function is a two-sided identity for
`compose` on `map`-built processors (composing with it on either side
produces the output stream of the other `map`); it is not a two-sided
identity for arbitrary processors (see the counterexample: a processor
beginning with a Write is evaluated differently once composed with
`map (fun a => a)`). -/
theorem claim_C6 :
    (∀ (A B C D : Type) (sp1 : StreamProcessor A B) (sp2 : StreamProcessor B C)
        (sp3 : StreamProcessor C D),
      compose (compose sp1 sp2) sp3 = compose sp1 (compose sp2 sp3))
    ∧ (∀ (A B : Type) (f : A → B) (n m : Nat) (s : StreamI A),
        eval (compose (map (fun a => a) n) (map f m)) s = eval (map f (min (n - 1) m)) s)
    ∧ (∀ (A B : Type) (f : A → B) (n m : Nat) (s : StreamI A),
        eval (compose (map f n) (map (fun b => b) m)) s = eval (map f (min (n - 1) m)) s) := by
  refine ⟨?_, ?_, ?_⟩
  · intro A B C D sp1 sp2 sp3
    exact compose_assoc sp1 sp2 sp3
  · intro A B f n m s
    rw [eval_compose_map_map (fun a => a) f n m s, eval_map]
  · intro A B f n m s
    rw [eval_compose_map_map f (fun b => b) n m s, eval_map]

/-- Claim C10: in `bind sp f`, the input element whose read brought `sp` to
its first Write is consumed: the processor `f b` chosen by the written value
`b` is evaluated with the input advanced exactly when `f b` begins with a
Read, so a Read-headed `f b` starts from the next input element and never
observes the element that triggered the Write. -/
theorem claim_C10 : ∀ (X A B : Type) (g : X → StreamProcessor X A)
    (f : A → StreamProcessor X B) (s : StreamI X) (b : A) (k : StreamProcessor X A),
    g (shead s) = .Put b k →
    eval (bind (.Get g) f) s = eval (f b) (if isGet (f b) then stail s else s) := by
  intro X A B g f s b k h
  show eval (bind (g (shead s)) f) (if isGet (bind (g (shead s)) f) then stail s else s) = _
  rw [h, bind_Put]

theorem claim_C10_witness :
    eval (bind (.Get fun a => .Put (a == 0) .Bot)
        (fun b : Bool => if b then (.Get fun x => .Put x .Bot)
          else (.Bot : StreamProcessor Nat Nat)))
      (fun n => n)
      = eval (.Get fun x => .Put x (.Bot : StreamProcessor Nat Nat)) (stail fun n => n) :=
  claim_C10 Nat Bool Nat (fun a => .Put (a == 0) .Bot)
    (fun b => if b then (.Get fun x => .Put x .Bot) else .Bot) (fun n => n) true .Bot rfl

/-- Claim C3 (counterexample): on the input `1, 2, 3, 4, 5, ...`, the
processor `bind (map (n == 0)) (b => if b then map (n + 2) else
filter (0 < n))` does not output the input unchanged: `bind` consumes the
first input element `1` to select the branch and discards `map`'s
continuation, so the output starts at `2`, not `1`. -/
theorem claim_C3_counterexample :
    eval (bind (map (fun n : Nat => n == 0) 1)
        (fun b => if b then map (fun n => n + 2) 5 else filter (fun n => decide (0 < n)) 5))
      ascending = [2, 3, 4, 5, 6]
    ∧ stake 5 ascending = [1, 2, 3, 4, 5]
    ∧ ([2, 3, 4, 5, 6] : List Nat) ≠ [1, 2, 3, 4, 5] :=
  ⟨rfl, rfl, by decide⟩

/-- Claim C3 (amended): on the input `1, 2, 3, 4, 5, ...`, the scenario
processor outputs the tail of the input, `2, 3, 4, 5, ...`: since `1 != 0`,
`bind` selects `filter (0 < n)` — consuming the element `1` that triggered
the choice — and every remaining element passes the filter.  (At `map`
depth `dG + 1` and branch depth `dF`, the output is the length-`dF` prefix
of the input's tail.) -/
theorem claim_C3_amended : ∀ (dG dF : Nat),
    eval (bind (map (fun n : Nat => n == 0) (dG + 1))
        (fun b => if b then map (fun n => n + 2) dF else filter (fun n => decide (0 < n)) dF))
      ascending
      = stake dF (stail ascending) := by
  intro dG dF
  cases dF with
  | zero => rfl
  | succ d =>
    show eval (filter (fun n => decide (0 < n)) (d + 1)) (stail ascending) = _
    rw [eval_filter]
    apply List.filter_eq_self.mpr
    intro b hb
    rcases mem_stake (d + 1) (stail ascending) b hb with ⟨i, _, hb2⟩
    subst hb2
    exact decide_eq_true (Nat.succ_pos (i + 1))

/-- Claim C7: `alternate sp1 sp2` stays a Read while `sp1` is a Read,
feeding input into `sp1` (first conjunct); on `sp1`'s first Write it emits
that value and the continuation becomes `alternate sp2 (sp1's
continuation)`, ping-ponging control on every Write (second conjunct).
Over filters: a round that matches `p` emits the head and swaps control
(third conjunct), a round that fails `p` keeps `sp1` in control (fourth
conjunct); with the two disjoint filters `0 < n` and `n < 0` on input
`1, 2, -1, -2, 1, 0, 0, ...`, the output interleaves matches strictly in
input order starting with the first filter: `1, -1, 1` (fifth conjunct). -/
theorem claim_C7 :
    (∀ (A B : Type) (n : Nat) (f : A → StreamProcessor A B) (sp2 : StreamProcessor A B),
      alternate (n + 1) (.Get f) sp2 = .Get (fun a => alternate n (f a) sp2))
    ∧ (∀ (A B : Type) (n : Nat) (b : B) (k sp2 : StreamProcessor A B),
      alternate (n + 1) (.Put b k) sp2 = .Put b (alternate n sp2 k))
    ∧ (∀ (A : Type) (p : A → Bool) (sp2 : StreamProcessor A A) (n d : Nat) (s : StreamI A),
        p (shead s) = true →
        eval (alternate (n + 2) (filter p (d + 1)) sp2) s
          = shead s :: eval (alternate n sp2 (filter p d))
              (if isGet (alternate n sp2 (filter p d)) then stail s else s))
    ∧ (∀ (A : Type) (p : A → Bool) (sp2 : StreamProcessor A A) (n d : Nat) (s : StreamI A),
        p (shead s) = false →
        eval (alternate (n + 2) (filter p (d + 1)) sp2) s
          = eval (alternate (n + 1) (filter p d) sp2)
              (if isGet (alternate (n + 1) (filter p d) sp2) then stail s else s))
    ∧ eval (alternate 20 (filter (fun n : Int => decide (0 < n)) 8)
          (filter (fun n : Int => decide (n < 0)) 8))
        (fun n => [(1 : Int), 2, -1, -2, 1, 0, 0].getD n 0) = [1, -1, 1] := by
  refine ⟨?_, ?_, ?_, ?_, ?_⟩
  · intro A B n f sp2
    exact alternate_Get n f sp2
  · intro A B n b k sp2
    exact alternate_Put n b k sp2
  · intro A p sp2 n d s hp
    exact alternate_filter_match p sp2 n d s hp
  · intro A p sp2 n d s hp
    exact alternate_filter_skip p sp2 n d s hp
  · rfl

theorem claim_C7_witness :
    (eval (alternate 4 (filter (fun n : Int => decide (0 < n)) 2)
          (filter (fun n : Int => decide (n < 0)) 2)) (fun n => [(1 : Int), -1].getD n 0)
        = shead (fun n => [(1 : Int), -1].getD n 0)
            :: eval (alternate 2 (filter (fun n : Int => decide (n < 0)) 2)
                (filter (fun n : Int => decide (0 < n)) 1))
              (if isGet (alternate 2 (filter (fun n : Int => decide (n < 0)) 2)
                  (filter (fun n : Int => decide (0 < n)) 1))
                then stail (fun n => [(1 : Int), -1].getD n 0)
                else (fun n => [(1 : Int), -1].getD n 0)))
    ∧ (eval (alternate 4 (filter (fun n : Int => decide (n < 0)) 2)
          (filter (fun n : Int => decide (0 < n)) 2)) (fun n => [(1 : Int), -1].getD n 0)
        = eval (alternate 3 (filter (fun n : Int => decide (n < 0)) 1)
              (filter (fun n : Int => decide (0 < n)) 2))
            (if isGet (alternate 3 (filter (fun n : Int => decide (n < 0)) 1)
                (filter (fun n : Int => decide (0 < n)) 2))
              then stail (fun n => [(1 : Int), -1].getD n 0)
              else (fun n => [(1 : Int), -1].getD n 0))) :=
  ⟨(claim_C7).2.2.1 Int (fun n => decide (0 < n)) (filter (fun n => decide (n < 0)) 2) 2 1
      (fun n => [(1 : Int), -1].getD n 0) (by decide),
    (claim_C7).2.2.2.1 Int (fun n => decide (n < 0)) (filter (fun n => decide (0 < n)) 2) 2 1
      (fun n => [(1 : Int), -1].getD n 0) (by decide)⟩

/-- Claim C8: `channel 0 x0` yields a stream whose head (peek) is `x0`
before anything is sent; after sending `x1`, advancing once and peeking
yields `x1`; capacity `0` makes the channel unbounded (`send` always
succeeds) while a capacity `> 0` bounds it, blocking senders exactly when
it is full. -/
theorem claim_C8 :
    (∀ (X : Type) (x0 : X), orHead (channel 0 x0) = x0)
    ∧ (∀ (X : Type) (x0 x1 : X),
        send x1 (channel 0 x0) = some ⟨x0, [x1], 0, true⟩
          ∧ orTail (⟨x0, [x1], 0, true⟩ : OvereagerReceiver X) = .next ⟨x1, [], 0, true⟩
          ∧ orHead (⟨x1, [], 0, true⟩ : OvereagerReceiver X) = x1)
    ∧ (∀ (X : Type) (r : OvereagerReceiver X) (x : X), r.cap = 0 → (send x r).isSome = true)
    ∧ (∀ (X : Type) (r : OvereagerReceiver X) (x : X), 0 < r.cap →
        (send x r = none ↔ r.cap ≤ r.queue.length)) := by
  refine ⟨?_, ?_, ?_, ?_⟩
  · intro X x0
    rfl
  · intro X x0 x1
    exact ⟨if_pos (Or.inl rfl), rfl, rfl⟩
  · intro X r x hc
    have hs : send x r = some ⟨r.message, r.queue ++ [x], r.cap, r.connected⟩ :=
      if_pos (Or.inl hc)
    rw [hs]
    rfl
  · intro X r x hc
    by_cases hcond : r.cap = 0 ∨ r.queue.length < r.cap
    · have hs : send x r = some ⟨r.message, r.queue ++ [x], r.cap, r.connected⟩ := if_pos hcond
      rw [hs]
      constructor
      · intro h
        exact absurd h (by simp)
      · intro h
        rcases hcond with h0 | hlt
        · exact absurd h0 (by omega)
        · exact absurd h (by omega)
    · have hs : send x r = none := if_neg hcond
      rw [hs]
      constructor
      · intro _
        by_contra hlen
        exact hcond (Or.inr (by omega))
      · intro _
        rfl

theorem claim_C8_witness :
    ((send 7 (channel 0 (5 : Nat))).isSome = true)
    ∧ (send 7 (⟨5, [9], 1, true⟩ : OvereagerReceiver Nat) = none ↔ (1 : Nat) ≤ [9].length) :=
  ⟨(claim_C8).2.2.1 Nat (channel 0 5) 7 rfl,
    (claim_C8).2.2.2 Nat ⟨5, [9], 1, true⟩ 7 (by decide)⟩

/-- Claim C9: the evaluator raises no errors of its own — against a stream
whose advance never fails, `evalE` returns exactly `eval`'s outputs with no
error (first conjunct); any failure it reports is a failure raised by the
stream's advance, propagated unchanged and ending evaluation there (second
conjunct); advancing a channel-backed stream whose sender side is
permanently gone and whose buffer is drained panics terminally (third
conjunct); and evaluating against such a dead channel emits the outputs
available before the failure and then aborts with it (fourth conjunct). -/
theorem claim_C9 :
    (∀ (A B σ E : Type) (hd : σ → A) (t : σ → σ) (sp : StreamProcessor A B) (s : σ),
      evalE hd (fun x => (Except.ok (t x) : Except E σ)) sp s
        = (eval sp (iterStream hd t s), none))
    ∧ (∀ (A B σ E : Type) (hd : σ → A) (tl : σ → Except E σ) (sp : StreamProcessor A B)
        (s : σ) (e : E),
      (evalE hd tl sp s).2 = some e → ∃ x : σ, tl x = .error e)
    ∧ (∀ (X : Type) (r : OvereagerReceiver X), r.connected = false → r.queue = [] →
        orTail r = .panicked)
    ∧ evalE orHead orTailDead (map (fun n => n * 2) 3)
        (⟨5, [7], 0, false⟩ : OvereagerReceiver Nat) = ([10, 14], some ()) := by
  refine ⟨?_, ?_, ?_, ?_⟩
  · intro A B σ E hd t sp s
    exact evalE_ok hd t sp s
  · intro A B σ E hd tl sp s e h
    exact evalE_error_from_tail hd tl sp s e h
  · intro X r hc hq
    obtain ⟨m, q, cap, conn⟩ := r
    dsimp only at hc hq
    subst hc
    subst hq
    rfl
  · rfl

theorem claim_C9_witness :
    (∃ x : OvereagerReceiver Nat, orTailDead x = .error ())
    ∧ orTail (⟨(3 : Nat), [], 0, false⟩ : OvereagerReceiver Nat) = .panicked :=
  ⟨(claim_C9).2.1 Nat Nat (OvereagerReceiver Nat) Unit orHead orTailDead
      (map (fun n => n * 2) 3) ⟨5, [7], 0, false⟩ () rfl,
    (claim_C9).2.2.1 Nat ⟨3, [], 0, false⟩ rfl rfl⟩

end Claims

end Rspl
